import Mathlib

/-!
# TopoToLake — verification of the workflow logic

Shallow embedding of the two scripts `tools/IsoClass.py` (Stage 1, classifier
pipeline) and `tools/CreateLakePolygons.py` (Stage 2, polygonizer pipeline).
The external geoprocessing engine calls (resample, cluster, majority filter,
fill, raster-to-polygon, clip, geodesic area computation) are opaque
capabilities; what is embedded here is the repository's own logic:

* `extract_location_year` — the `location_year` renaming helper of Stage 1;
* `raster_to_lake_name` — the output-name helper of Stage 2;
* the Stage 1 tracking-table (CSV) bookkeeping: header creation, reuse of an
  existing file, append-only row writing;
* the Stage 2 record loop: the blank-`water_class` skip, integer conversion,
  the binary remap construction, and the strict area filter.

Python string primitives are modelled on `List Char`:
`str.split("_")` as `splitU`, `"_".join` as `joinUc`, `str.strip` as
`pyStrip`, slicing with a possibly negative stop index as `pyTake`, and
`int(str)` as `pyInt`.  The regex `\d` of `re.fullmatch(r"\d{4}", p)` is
modelled as an ASCII decimal digit (`Char.isDigit`), and Python's whitespace
set as `Char.isWhitespace`; the claims under study do not distinguish the
Unicode extensions of either.
-/

namespace TopoToLake

/-- Model of Python `s.split("_")` on a character list: splits at every
underscore and keeps empty segments, so `splitU []` is `[[]]`, matching
`"".split("_") == [""]`. -/
def splitU : List Char → List (List Char)
  | [] => [[]]
  | c :: rest =>
    if c = '_' then [] :: splitU rest
    else
      match splitU rest with
      | [] => [[c]]
      | s :: ss => (c :: s) :: ss

/-- Model of Python `"_".join` on character lists. -/
def joinUc : List (List Char) → List Char
  | [] => []
  | [s] => s
  | s :: t :: ts => s ++ '_' :: joinUc (t :: ts)

/-- `raster_name.split("_")` at the `String` level. -/
def pySplitU (s : String) : List String :=
  (splitU s.data).map (fun cs => ⟨cs⟩)

/-- `"_".join(parts)` at the `String` level. -/
def joinU (l : List String) : String :=
  ⟨joinUc (l.map String.data)⟩

/-- Model of `re.fullmatch(r"\d{4}", p)`: the segment is exactly four
decimal digits. -/
def isYear4 (s : String) : Bool :=
  s.data.length == 4 && s.data.all Char.isDigit

/-- Model of the Python slice `l[:j]` where the stop index `j` may be
negative: a negative stop counts from the end of the list and clamps at 0. -/
def pyTake {α : Type} (l : List α) (j : Int) : List α :=
  if j < 0 then l.take (((l.length : Int) + j).toNat) else l.take j.toNat

/-- Model of Python `l.index(y)`: the index of the first occurrence.  The
source only calls it on a member (`parts.index(year)` inside the `try`
guarded by the `except`); on a non-member this model returns the length. -/
def pyIndexOf : List String → String → Nat
  | [], _ => 0
  | a :: rest, y => if a = y then 0 else pyIndexOf rest y + 1

/-- `extract_location_year` of `tools/IsoClass.py`:
split the raster name on underscores, take the first segment that is exactly
four digits as the year (defaulting to the literal `"unknown"`), then join
`parts[:year_index - 1]` as the location (the slice drops the map-sheet
segment right before the year); if `parts.index(year)` would raise — i.e. the
year string is not a segment — the `except` branch sets the location to
`"UnknownLoc"`.  The result is `f"{location}_{year}"`. -/
def extract_location_year (raster_name : String) : String :=
  let parts := pySplitU raster_name
  let year := (parts.find? isYear4).getD "unknown"
  let location :=
    if year ∈ parts then
      joinU (pyTake parts ((pyIndexOf parts year : Int) - 1))
    else "UnknownLoc"
  location ++ "_" ++ year

/-- `raster_to_lake_name` of `tools/CreateLakePolygons.py`:
`raster_name.rsplit("_", 1)[0]` — everything before the last underscore, or
the whole name when it has no underscore — with `"_Lakes"` appended. -/
def raster_to_lake_name (raster_name : String) : String :=
  let parts := pySplitU raster_name
  joinU (if parts.length ≤ 1 then parts else parts.dropLast) ++ "_Lakes"

/-! ## Stage 1 — tracking-table (CSV) bookkeeping of `tools/IsoClass.py` -/

/-- A CSV row, as the list of its fields (`csv.writer.writerow`'s argument). -/
abbrev CsvRow := List String

/-- The header row written when the tracking table is created:
`writer.writerow(["classified_raster", "water_class"])`. -/
def stage1Header : CsvRow := ["classified_raster", "water_class"]

/-- `iso_output_name = f"{short_name}_{num_classes}class"` with
`short_name = extract_location_year(raster)`. -/
def iso_output_name (raster : String) (num_classes : Nat) : String :=
  extract_location_year raster ++ "_" ++ toString num_classes ++ "class"

/-- The tracking-table file contents Stage 1 starts from: if the file does
not exist (`none`) it is created with just the header row; if it exists
(`some rows`) it is left as it is — the `if not os.path.exists(csv_path)`
guard skips the header write. -/
def stage1InitCsv : Option (List CsvRow) → List CsvRow
  | none => [stage1Header]
  | some rows => rows

/-- One iteration of the Stage 1 raster loop, restricted to its effect on the
tracking table: open in append mode and `writer.writerow([iso_output_name, ""])`. -/
def stage1Append (file : List CsvRow) (raster : String) (num_classes : Nat) : List CsvRow :=
  file ++ [[iso_output_name raster num_classes, ""]]

/-- The Stage 1 raster loop threaded over the tracking-table state, in
iteration order. -/
def stage1Loop (num_classes : Nat) : List CsvRow → List String → List CsvRow
  | file, [] => file
  | file, r :: rest => stage1Loop num_classes (stage1Append file r num_classes) rest

/-- A whole Stage 1 run's effect on the tracking table: initialize (create or
reuse) the file, then loop over the rasters. -/
def stage1Run (existing : Option (List CsvRow)) (rasters : List String)
    (num_classes : Nat) : List CsvRow :=
  stage1Loop num_classes (stage1InitCsv existing) rasters

/-! ## Stage 2 — the record loop of `tools/CreateLakePolygons.py` -/

/-- Model of Python `s.strip()`: drop leading and trailing whitespace. -/
def pyStrip (s : String) : String :=
  ⟨((s.data.dropWhile Char.isWhitespace).reverse.dropWhile Char.isWhitespace).reverse⟩

/-- Digit characters read as a base-10 natural number. -/
def digitsToNat (cs : List Char) : Nat :=
  cs.foldl (fun acc c => acc * 10 + (c.toNat - 48)) 0

/-- Model of Python `int(s)` on strings: surrounding whitespace is allowed,
then an optional sign and a nonempty digit run; anything else raises
`ValueError`, modelled as `none`.  (Python's digit-grouping underscores are
not modelled; no tracking-table value uses them.) -/
def pyInt (s : String) : Option Int :=
  match (pyStrip s).data with
  | [] => none
  | '+' :: ds =>
    if !ds.isEmpty && ds.all Char.isDigit then some (digitsToNat ds) else none
  | '-' :: ds =>
    if !ds.isEmpty && ds.all Char.isDigit then some (-(digitsToNat ds : Int)) else none
  | ds =>
    if ds.all Char.isDigit then some (digitsToNat ds) else none

/-- What Stage 2 does with one tracking record. -/
structure Record where
  classified_raster : String
  water_class : String
deriving DecidableEq

/-- The warning `arcpy.AddWarning` emits for a skipped record. -/
def skipWarning (raster_name : String) : String :=
  "Skipping " ++ raster_name ++ ": No water_class value specified."

/-- Outcome of one iteration of the Stage 2 record loop:
`skip` with the emitted warning when `water_class` is blank; `processed` with
the converted integer class and derived output name otherwise; `error` when
`int(water_class)` raises (an uncaught `ValueError`). -/
inductive Stage2Action where
  | skip (warning : String)
  | processed (water_class : Int) (output_name : String)
  | error
deriving DecidableEq

/-- One iteration of the Stage 2 record loop, up to the external engine calls:
`if not water_class.strip(): AddWarning(...); continue`, then
`water_class = int(water_class)` and `output_name = raster_to_lake_name(...)`. -/
def stage2Step (row : Record) : Stage2Action :=
  if pyStrip row.water_class = "" then
    .skip (skipWarning row.classified_raster)
  else
    match pyInt row.water_class with
    | some wc => .processed wc (raster_to_lake_name row.classified_raster)
    | none => .error

/-- The Stage 2 record loop: a skipped record continues with the remaining
records; an uncaught conversion error aborts the batch. -/
def stage2Batch : List Record → List Stage2Action
  | [] => []
  | r :: rest =>
    match stage2Step r with
    | .error => [.error]
    | a => a :: stage2Batch rest

/-- The binary remap of step 1 of the loop:
`remap = [[water_class, 1]] + [[val, 0] for val in non_water]` where
`non_water` are the observed class values different from `water_class`. -/
def buildRemap (class_values : List Int) (water_class : Int) : List (Int × Int) :=
  (water_class, 1) :: (class_values.filter (fun v => v != water_class)).map (fun v => (v, 0))

/-- Applying a remap table to a cell value: the first matching entry wins,
a value matched by no entry is left unmapped (`none`). -/
def applyRemap (remap : List (Int × Int)) (v : Int) : Option Int :=
  (remap.find? (fun e => e.1 == v)).map (fun e => e.2)

/-- A clipped lake polygon as the area filter sees it: its object id and its
`poly_area` attribute (geodesic area in square meters, computed by
`CalculateGeometryAttributes`), modelled as a rational. -/
structure Polygon where
  oid : Nat
  poly_area : ℚ
deriving DecidableEq

/-- The area filter of step 7:
`SelectLayerByAttribute("temp_lyr", "NEW_SELECTION", f"poly_area > {area_threshold}")`
followed by `CopyFeatures` of the selection. -/
def selectByArea (area_threshold : ℚ) (polys : List Polygon) : List Polygon :=
  polys.filter (fun p => decide (area_threshold < p.poly_area))

/-! ## Helper lemmas -/

/-- Running the Stage 1 raster loop appends to the tracking table exactly one
row `[iso_output_name raster, ""]` per raster, in iteration order. -/
theorem stage1Loop_eq (num_classes : Nat) (rasters : List String) :
    ∀ file : List CsvRow,
      stage1Loop num_classes file rasters
        = file ++ rasters.map (fun r => [iso_output_name r num_classes, ""]) := by
  induction rasters with
  | nil => intro file; simp [stage1Loop]
  | cons r rest ih =>
    intro file
    simp [stage1Loop, stage1Append, ih]

/-- `find?` skips a leading run on which the predicate is false. -/
theorem find?_append_all_false {α : Type} (f : α → Bool) :
    ∀ l₁ l₂ : List α, (∀ x ∈ l₁, f x = false) →
      List.find? f (l₁ ++ l₂) = List.find? f l₂ := by
  intro l₁
  induction l₁ with
  | nil => intro l₂ _; rfl
  | cons a t ih =>
    intro l₂ h
    rw [List.cons_append, List.find?_cons_of_neg, ih l₂ (fun x hx => h x (List.mem_cons_of_mem a hx))]
    intro hb
    rw [h a (List.mem_cons_self a t)] at hb
    exact Bool.noConfusion hb

/-- `pyIndexOf` past a leading run that does not contain the key. -/
theorem pyIndexOf_append_of_not_mem (y : String) :
    ∀ l₁ l₂ : List String, y ∉ l₁ →
      pyIndexOf (l₁ ++ l₂) y = l₁.length + pyIndexOf l₂ y := by
  intro l₁
  induction l₁ with
  | nil => intro l₂ _; simp
  | cons a t ih =>
    intro l₂ h
    have ha : a ≠ y := fun e => h (e ▸ List.mem_cons_self a t)
    rw [List.cons_append, pyIndexOf, if_neg ha,
      ih l₂ (fun hy => h (List.mem_cons_of_mem a hy))]
    simp [List.length_cons]
    omega

/-- `pyIndexOf` finds the head immediately. -/
theorem pyIndexOf_cons_self (y : String) (l : List String) :
    pyIndexOf (y :: l) y = 0 := by
  rw [pyIndexOf, if_pos rfl]

/-! ## Claim theorems -/

/-- C1: on a raster name whose first exactly-four-digit segment sits at
index at least 2 of the underscore split, `extract_location_year` returns
the segments before the segment immediately preceding the year, joined with
underscores, followed by an underscore and the year. -/
theorem short_name_location_sheet_year (name : String) (pre : List String) (y : String)
    (rest : List String) (hparts : pySplitU name = pre ++ y :: rest)
    (hy : isYear4 y = true) (hpre : ∀ p ∈ pre, isYear4 p = false)
    (hlen : 2 ≤ pre.length) :
    extract_location_year name = joinU pre.dropLast ++ "_" ++ y := by
  have hynp : y ∉ pre := fun hm => by rw [hpre y hm] at hy; exact Bool.noConfusion hy
  have hfind : (pySplitU name).find? isYear4 = some y := by
    rw [hparts, find?_append_all_false isYear4 pre (y :: rest) hpre,
      List.find?_cons_of_pos _ hy]
  have hmem : y ∈ pySplitU name := by
    rw [hparts]
    exact List.mem_append_right pre (List.mem_cons_self y rest)
  have hidx : pyIndexOf (pySplitU name) y = pre.length := by
    rw [hparts, pyIndexOf_append_of_not_mem y pre (y :: rest) hynp, pyIndexOf_cons_self]
    omega
  have htake : pyTake (pre ++ y :: rest) ((pre.length : Int) - 1) = pre.dropLast := by
    rw [pyTake, if_neg (by omega)]
    have h1 : ((pre.length : Int) - 1).toNat = pre.length - 1 := by omega
    rw [h1, List.take_append_of_le_length (by omega), ← List.dropLast_eq_take]
  simp only [extract_location_year]
  rw [hfind, Option.getD_some, if_pos hmem, hidx, hparts, htake]

/-- C7: `extract_location_year` is total by construction (the `except`
branch absorbs the only fallible step), and on every name with no
exactly-four-digit underscore-delimited segment the result ends in
`"_unknown"` — whether the fallback location is `"UnknownLoc"` or a literal
`"unknown"` segment made `parts.index` succeed. -/
theorem short_name_no_year_unknown (name : String)
    (h : ∀ p ∈ pySplitU name, isYear4 p = false) :
    ∃ loc : String, extract_location_year name = loc ++ "_unknown" := by
  have hfind : (pySplitU name).find? isYear4 = none := by
    rw [List.find?_eq_none]
    intro x hx hb
    rw [h x hx] at hb
    exact Bool.noConfusion hb
  simp only [extract_location_year]
  rw [hfind, Option.getD_none]
  refine ⟨if "unknown" ∈ pySplitU name then
      joinU (pyTake (pySplitU name) ((pyIndexOf (pySplitU name) "unknown" : Int) - 1))
    else "UnknownLoc", ?_⟩
  rw [String.append_assoc, (by decide : ("_" : String) ++ "unknown" = "_unknown")]

/-- C10 (implicit): when the first four-digit segment is the very first
underscore-delimited segment, the Python slice `parts[:year_index - 1]`
becomes `parts[:-1]`, so the location is every segment but the last — the
year included; when it is the second segment, the location is empty and the
result starts with an underscore. -/
theorem short_name_year_at_low_index :
    (∀ (name y : String) (rest : List String),
        pySplitU name = y :: rest → isYear4 y = true →
          extract_location_year name = joinU ((y :: rest).dropLast) ++ "_" ++ y)
      ∧ (∀ (name p y : String) (rest : List String),
        pySplitU name = p :: y :: rest → isYear4 p = false → isYear4 y = true →
          extract_location_year name = "_" ++ y) := by
  constructor
  · intro name y rest hparts hy
    have hfind : (pySplitU name).find? isYear4 = some y := by
      rw [hparts, List.find?_cons_of_pos _ hy]
    have hmem : y ∈ pySplitU name := by
      rw [hparts]; exact List.mem_cons_self y rest
    have hidx : pyIndexOf (pySplitU name) y = 0 := by
      rw [hparts, pyIndexOf_cons_self]
    have hj : ((0 : Nat) : Int) - 1 = -1 := by decide
    have htake : pyTake (y :: rest) (-1 : Int) = (y :: rest).dropLast := by
      rw [pyTake, if_pos (by omega)]
      have h1 : (((y :: rest).length : Int) + (-1)).toNat = (y :: rest).length - 1 := by
        rw [List.length_cons]; omega
      rw [h1, ← List.dropLast_eq_take]
    simp only [extract_location_year]
    rw [hfind, Option.getD_some, if_pos hmem, hidx, hj, hparts, htake]
  · intro name p y rest hparts hp hy
    have hpy : p ≠ y := fun e => by rw [e, hy] at hp; exact Bool.noConfusion hp
    have hfind : (pySplitU name).find? isYear4 = some y := by
      rw [hparts, List.find?_cons_of_neg, List.find?_cons_of_pos _ hy]
      intro hb
      rw [hp] at hb
      exact Bool.noConfusion hb
    have hmem : y ∈ pySplitU name := by
      rw [hparts]; exact List.mem_cons_of_mem p (List.mem_cons_self y rest)
    have hidx : pyIndexOf (pySplitU name) y = 1 := by
      rw [hparts, pyIndexOf, if_neg hpy, pyIndexOf_cons_self]
    have hj : ((1 : Nat) : Int) - 1 = 0 := by decide
    have htake : pyTake (p :: y :: rest) (0 : Int) = ([] : List String) := by
      rw [pyTake, if_neg (by omega)]
      rfl
    simp only [extract_location_year]
    rw [hfind, Option.getD_some, if_pos hmem, hidx, hj, hparts, htake,
      (by decide : joinU ([] : List String) = ""),
      (by decide : ("" : String) ++ "_" = "_")]

/-- C3: if the tracking table file already exists when Stage 1 starts, the
run leaves its contents as the initial state — the header is not rewritten
and the existing rows stay at their positions — and only appends the new
rows after them. -/
theorem stage1_reuses_existing_table (existing : List CsvRow) (rasters : List String)
    (num_classes : Nat) :
    stage1Run (some existing) rasters num_classes
        = existing ++ rasters.map (fun r => [iso_output_name r num_classes, ""])
      ∧ (stage1Run (some existing) rasters num_classes).take existing.length
        = existing := by
  refine ⟨by simp [stage1Run, stage1InitCsv, stage1Loop_eq], ?_⟩
  rw [stage1Run, stage1InitCsv, stage1Loop_eq, List.take_left]

/-- C8: Stage 1 appends to the tracking table exactly one row per input
raster, in iteration order, each row being the derived classified-raster
name paired with an empty `water_class` field; on a fresh file the table is
the header `classified_raster,water_class` followed by those rows. -/
theorem stage1_one_row_per_raster (existing : Option (List CsvRow))
    (rasters : List String) (num_classes : Nat) :
    (stage1Run existing rasters num_classes).drop (stage1InitCsv existing).length
        = rasters.map (fun r => [iso_output_name r num_classes, ""])
      ∧ stage1Run none rasters num_classes
        = ["classified_raster", "water_class"]
            :: rasters.map (fun r => [iso_output_name r num_classes, ""]) := by
  refine ⟨?_, by simp [stage1Run, stage1InitCsv, stage1Loop_eq, stage1Header]⟩
  rw [stage1Run, stage1Loop_eq, List.drop_left]

/-- C4: Stage 2 skips a record, emitting the warning, exactly when its
`water_class` strips to the empty string; a record whose `water_class` is
non-blank and converts to an integer `n` is processed with class `n` and the
derived output name; and a skipped record continues the batch with the
remaining records. -/
theorem stage2_skip_iff_blank (row : Record) :
    ((∃ w, stage2Step row = .skip w) ↔ pyStrip row.water_class = "")
      ∧ (∀ n : Int, pyStrip row.water_class ≠ "" → pyInt row.water_class = some n →
          stage2Step row = .processed n (raster_to_lake_name row.classified_raster))
      ∧ (∀ w rest, stage2Step row = .skip w →
          stage2Batch (row :: rest) = .skip w :: stage2Batch rest) := by
  refine ⟨⟨?_, ?_⟩, ?_, ?_⟩
  · rintro ⟨w, hw⟩
    by_contra hb
    rw [stage2Step, if_neg hb] at hw
    cases hi : pyInt row.water_class with
    | none => rw [hi] at hw; exact Stage2Action.noConfusion hw
    | some n => rw [hi] at hw; exact Stage2Action.noConfusion hw
  · intro hb
    exact ⟨skipWarning row.classified_raster, by rw [stage2Step, if_pos hb]⟩
  · intro n hb hn
    rw [stage2Step, if_neg hb, hn]
  · intro w rest hs
    rw [stage2Batch, hs]

/-- C9 (implicit): a record whose `water_class` consists only of whitespace
is treated exactly like a blank one — `water_class.strip()` is falsy, so the
record is skipped with the warning and never reaches `int(water_class)`. -/
theorem stage2_whitespace_like_blank (row : Record)
    (h : row.water_class.data.all Char.isWhitespace = true) :
    stage2Step row = .skip (skipWarning row.classified_raster)
      ∧ stage2Step row = stage2Step ⟨row.classified_raster, ""⟩ := by
  have hdrop : row.water_class.data.dropWhile Char.isWhitespace = [] := by
    rw [List.dropWhile_eq_nil_iff]
    intro x hx
    exact List.all_eq_true.mp h x hx
  have hb : pyStrip row.water_class = "" := by
    rw [pyStrip, hdrop]
    rfl
  have hstep : stage2Step row = .skip (skipWarning row.classified_raster) := by
    rw [stage2Step, if_pos hb]
  refine ⟨hstep, hstep.trans ?_⟩
  rw [stage2Step, if_pos (by decide : pyStrip "" = "")]

/-- C5: Stage 2's area filter is strictly greater-than — a polygon is in the
selected output iff it is among the clipped polygons and its `poly_area`
exceeds the caller-supplied threshold; a polygon whose area equals the
threshold exactly is excluded. -/
theorem area_filter_strict (area_threshold : ℚ) (polys : List Polygon) (p : Polygon) :
    (p ∈ selectByArea area_threshold polys ↔ p ∈ polys ∧ area_threshold < p.poly_area)
      ∧ (p ∈ polys → p.poly_area = area_threshold →
          p ∉ selectByArea area_threshold polys) := by
  constructor
  · simp [selectByArea, List.mem_filter]
  · intro hp he
    simp [selectByArea, List.mem_filter, he]

/-- On the filtered non-water list, the remap lookup finds `(v, 0)` for an
observed value `v` different from the water class. -/
theorem find?_nonwater (w v : Int) :
    ∀ l : List Int, v ∈ l → v ≠ w →
      ((l.filter (fun x => x != w)).map (fun x => (x, 0))).find?
          (fun e : Int × Int => e.1 == v)
        = some (v, 0) := by
  intro l
  induction l with
  | nil => intro hv _; exact absurd hv (List.not_mem_nil v)
  | cons a t ih =>
    intro hv hne
    by_cases ha : a = w
    · have hvt : v ∈ t := by
        rcases List.mem_cons.mp hv with h1 | h1
        · exact absurd (h1.trans ha) hne
        · exact h1
      rw [List.filter_cons, if_neg (by simp [ha])]
      exact ih hvt hne
    · have hfa : ((a != w) = true) := bne_iff_ne.mpr ha
      rw [List.filter_cons, if_pos hfa, List.map_cons]
      by_cases hav : a = v
      · subst hav
        rw [List.find?_cons_of_pos]
        exact beq_self_eq_true a
      · have hvt : v ∈ t := by
          rcases List.mem_cons.mp hv with h1 | h1
          · exact absurd h1.symm hav
          · exact h1
        rw [List.find?_cons_of_neg]
        · exact ih hvt hne
        · intro hb
          exact hav (beq_iff_eq.mp hb)

/-- C6: for any set of observed class values and any `water_class` `w`, the
remap maps `w` to 1 and every observed value different from `w` to 0;
building it is total, and when `w` is not among the observed values no
observed value is mapped to 1 — the mask is all background, not an error. -/
theorem remap_binary (class_values : List Int) (w : Int) :
    applyRemap (buildRemap class_values w) w = some 1
      ∧ (∀ v ∈ class_values, v ≠ w →
          applyRemap (buildRemap class_values w) v = some 0)
      ∧ (w ∉ class_values → ∀ v ∈ class_values,
          applyRemap (buildRemap class_values w) v ≠ some 1) := by
  have h2 : ∀ v ∈ class_values, v ≠ w →
      applyRemap (buildRemap class_values w) v = some 0 := by
    intro v hv hne
    rw [applyRemap, buildRemap, List.find?_cons_of_neg, find?_nonwater w v class_values hv hne]
    · rfl
    · intro hb
      exact Ne.symm hne (beq_iff_eq.mp hb)
  refine ⟨by simp [applyRemap, buildRemap, List.find?], h2, ?_⟩
  intro hw v hv
  have hne : v ≠ w := fun e => hw (e ▸ hv)
  rw [h2 v hv hne]
  simp

/-- `splitU` never returns the empty list of segments. -/
theorem splitU_ne_nil : ∀ cs : List Char, splitU cs ≠ []
  | [] => by simp [splitU]
  | c :: rest => by
    simp only [splitU]
    split
    · exact List.cons_ne_nil _ _
    · split
      · exact List.cons_ne_nil _ _
      · exact List.cons_ne_nil _ _

/-- A run with no underscore splits into the single segment it is. -/
theorem splitU_no_underscore : ∀ cs : List Char, (∀ c ∈ cs, c ≠ '_') → splitU cs = [cs]
  | [] => fun _ => rfl
  | c :: rest => fun h => by
    have ih := splitU_no_underscore rest (fun x hx => h x (List.mem_cons_of_mem c hx))
    simp only [splitU]
    rw [if_neg (h c (List.mem_cons_self c rest)), ih]

/-- `splitU` on a leading underscore opens a fresh empty segment. -/
theorem splitU_cons_us (rest : List Char) : splitU ('_' :: rest) = [] :: splitU rest := by
  simp [splitU]

/-- `splitU` on a leading non-underscore extends the first segment. -/
theorem splitU_cons_other (c : Char) (rest : List Char) (hc : c ≠ '_') (s : List Char)
    (ss : List (List Char)) (hss : splitU rest = s :: ss) :
    splitU (c :: rest) = (c :: s) :: ss := by
  simp [splitU, hc, hss]

/-- Splitting at an explicit underscore: the segments of `xs` stay intact
(`xs` splits as `init ++ [last]`), the underscore separates `last` from the
segments of `ys`. -/
theorem splitU_append_underscore : ∀ xs ys : List Char,
    ∃ (init : List (List Char)) (last : List Char),
      splitU xs = init ++ [last]
        ∧ splitU (xs ++ '_' :: ys) = init ++ last :: splitU ys
  | [], ys => by
    refine ⟨[], [], rfl, ?_⟩
    rw [List.nil_append, splitU_cons_us]
    rfl
  | x :: xs, ys => by
    obtain ⟨init, last, h1, h2⟩ := splitU_append_underscore xs ys
    by_cases hx : x = '_'
    · subst hx
      refine ⟨[] :: init, last, ?_, ?_⟩
      · rw [splitU_cons_us, h1]
        rfl
      · rw [List.cons_append, splitU_cons_us, h2]
        rfl
    · rcases init with _ | ⟨i, is⟩
      · rw [List.nil_append] at h1 h2
        refine ⟨[], x :: last, ?_, ?_⟩
        · rw [splitU_cons_other x xs hx last [] h1]
          rfl
        · rw [List.cons_append, splitU_cons_other x (xs ++ '_' :: ys) hx last (splitU ys) h2]
          rfl
      · rw [List.cons_append] at h1 h2
        refine ⟨(x :: i) :: is, last, ?_, ?_⟩
        · rw [splitU_cons_other x xs hx i (is ++ [last]) h1]
          rfl
        · rw [List.cons_append,
            splitU_cons_other x (xs ++ '_' :: ys) hx i (is ++ last :: splitU ys) h2]
          rfl

/-- Joining the segments of `splitU` restores the original characters. -/
theorem joinUc_splitU : ∀ cs : List Char, joinUc (splitU cs) = cs
  | [] => rfl
  | c :: rest => by
    have ih := joinUc_splitU rest
    obtain ⟨s, ss, hss⟩ := List.exists_cons_of_ne_nil (splitU_ne_nil rest)
    simp only [splitU]
    by_cases hc : c = '_'
    · rw [if_pos hc, hss]
      show [] ++ '_' :: joinUc (s :: ss) = c :: rest
      rw [← hss, ih, hc]
      rfl
    · rw [if_neg hc, hss]
      rcases ss with _ | ⟨t, ts⟩
      · show c :: s = c :: rest
        rw [hss] at ih
        exact congrArg (c :: ·) ih
      · show (c :: s) ++ '_' :: joinUc (t :: ts) = c :: rest
        rw [hss] at ih
        rw [List.cons_append]
        exact congrArg (c :: ·) ih

/-- Joining the underscore split of a string restores the string. -/
theorem joinU_pySplitU (s : String) : joinU (pySplitU s) = s := by
  rw [joinU, pySplitU, List.map_map]
  have hid : (String.data ∘ fun cs => (⟨cs⟩ : String)) = id := rfl
  rw [hid, List.map_id, joinUc_splitU]

/-- `raster_to_lake_name` on a name of the form `base ++ "_" ++ seg` with
`seg` free of underscores strips the final segment `seg` and appends
`"_Lakes"`. -/
theorem raster_to_lake_strip_append (base seg : String)
    (hseg : ∀ c ∈ seg.data, c ≠ '_') :
    raster_to_lake_name (base ++ "_" ++ seg) = base ++ "_Lakes" := by
  obtain ⟨init, last, h1, h2⟩ := splitU_append_underscore base.data seg.data
  have hdata : (base ++ "_" ++ seg).data = base.data ++ '_' :: seg.data := by
    simp [String.data_append]
  have hparts : pySplitU (base ++ "_" ++ seg)
      = init.map (fun cs => (⟨cs⟩ : String)) ++ [⟨last⟩, seg] := by
    rw [pySplitU, hdata, h2, splitU_no_underscore seg.data hseg]
    simp only [List.map_append, List.map_cons, List.map_nil]
  simp only [raster_to_lake_name]
  rw [hparts]
  rw [if_neg (by simp)]
  have hassoc : init.map (fun cs => (⟨cs⟩ : String)) ++ [(⟨last⟩ : String), seg]
      = (init.map (fun cs => (⟨cs⟩ : String)) ++ [(⟨last⟩ : String)]) ++ [seg] := by
    simp
  rw [hassoc, List.dropLast_concat]
  have hbase : init.map (fun cs => (⟨cs⟩ : String)) ++ [(⟨last⟩ : String)]
      = pySplitU base := by
    rw [pySplitU, h1]
    simp
  rw [hbase, joinU_pySplitU]

/-- C2 counterexample: applying `raster_to_lake_name` to the already-suffixed
name `"Sitka_1950_Lakes"` does not strip down to `"Sitka_1950"` — it strips
`"Lakes"` and re-appends `"_Lakes"`, returning `"Sitka_1950_Lakes"`. -/
theorem output_lake_name_counterexample :
    raster_to_lake_name "Sitka_1950_Lakes" = "Sitka_1950_Lakes"
      ∧ raster_to_lake_name "Sitka_1950_Lakes" ≠ "Sitka_1950" := by
  decide

/-- C2 (amended): `raster_to_lake_name` strips the input name's final
underscore-delimited segment and appends `"_Lakes"`, so
`"Sitka_1950_6class"` maps to `"Sitka_1950_Lakes"`; on the already-suffixed
`"Sitka_1950_Lakes"` the stripped base is `"Sitka_1950"` and the re-appended
suffix makes the function idempotent there, yielding `"Sitka_1950_Lakes"`. -/
theorem output_lake_name_amended :
    (∀ base seg : String, (∀ c ∈ seg.data, c ≠ '_') →
        raster_to_lake_name (base ++ "_" ++ seg) = base ++ "_Lakes")
      ∧ raster_to_lake_name "Sitka_1950_6class" = "Sitka_1950_Lakes"
      ∧ raster_to_lake_name "Sitka_1950_Lakes" = "Sitka_1950_Lakes" :=
  ⟨raster_to_lake_strip_append, by decide, by decide⟩

/-! ## Witnesses -/

/-- C1 witness at the spec's example name. -/
theorem short_name_location_sheet_year_witness :
    extract_location_year "Sitka_A12_1950_topo" = "Sitka_1950" :=
  (short_name_location_sheet_year "Sitka_A12_1950_topo" ["Sitka", "A12"] "1950" ["topo"]
    (by decide) (by decide) (by decide) (by decide)).trans (by decide)

/-- C2 witness instantiating the amended general statement. -/
theorem output_lake_name_amended_witness :
    raster_to_lake_name ("Sitka_1950" ++ "_" ++ "6class") = "Sitka_1950" ++ "_Lakes" :=
  output_lake_name_amended.1 "Sitka_1950" "6class" (by decide)

/-- C4 witness: a record with integer `water_class` is processed. -/
theorem stage2_skip_iff_blank_witness :
    stage2Step ⟨"Sitka_1950_6class", "2"⟩
      = Stage2Action.processed 2 (raster_to_lake_name "Sitka_1950_6class") :=
  (stage2_skip_iff_blank ⟨"Sitka_1950_6class", "2"⟩).2.1 2 (by decide) (by decide)

/-- C5 witness: a polygon exactly at the threshold is excluded. -/
theorem area_filter_strict_witness :
    (⟨2, 200⟩ : Polygon) ∉ selectByArea 200 [⟨1, 300⟩, ⟨2, 200⟩] :=
  (area_filter_strict 200 [⟨1, 300⟩, ⟨2, 200⟩] ⟨2, 200⟩).2 (by decide) (by decide)

/-- C6 witness on observed values `{1, 2, 3}` with water class 2. -/
theorem remap_binary_witness :
    applyRemap (buildRemap [1, 2, 3] 2) 2 = some 1
      ∧ applyRemap (buildRemap [1, 2, 3] 2) 1 = some 0 :=
  ⟨(remap_binary [1, 2, 3] 2).1, (remap_binary [1, 2, 3] 2).2.1 1 (by decide) (by decide)⟩

/-- C7 witness on a name with no four-digit segment. -/
theorem short_name_no_year_unknown_witness :
    ∃ loc : String, extract_location_year "Sitka_topo" = loc ++ "_unknown" :=
  short_name_no_year_unknown "Sitka_topo" (by decide)

/-- C9 witness: a whitespace-only `water_class` is skipped like a blank one. -/
theorem stage2_whitespace_like_blank_witness :
    stage2Step ⟨"Sitka_1950_6class", " "⟩
        = Stage2Action.skip (skipWarning "Sitka_1950_6class")
      ∧ stage2Step ⟨"Sitka_1950_6class", " "⟩ = stage2Step ⟨"Sitka_1950_6class", ""⟩ :=
  stage2_whitespace_like_blank ⟨"Sitka_1950_6class", " "⟩ (by decide)

/-- C10 witness: year at index 0 duplicates the year; year at index 1 gives
an empty location. -/
theorem short_name_year_at_low_index_witness :
    extract_location_year "1950_topo" = "1950_1950"
      ∧ extract_location_year "Sitka_1950_topo" = "_1950" :=
  ⟨(short_name_year_at_low_index.1 "1950_topo" "1950" ["topo"] (by decide)
      (by decide)).trans (by decide),
    (short_name_year_at_low_index.2 "Sitka_1950_topo" "Sitka" "1950" ["topo"] (by decide)
      (by decide) (by decide)).trans (by decide)⟩

end TopoToLake
